import Mathlib

set_option maxHeartbeats 1000000

namespace Wasynth

/-!
Shallow embedding of the `codegen/luau` crate of Wasynth.

The crate root `src/codegen/luau/src/lib.rs` declares two public runtime
text assets (`RUNTIME`, `EXPORT_RUNTIME`), re-exports the three translator
entry points (`from_inst_list`, `from_module_typed`, `from_module_untyped`)
and keeps the `analyzer`, `backend` and `translator` modules private.
The bodies of those three modules and the two runtime text files are not
part of the source tree given here, so the pipeline below is modelled from
the specification (each such definition says so in its doc comment).
-/

/-- A bytecode value type carried by stack slots, locals and globals. -/
inductive ValType
  | i32
  | i64
  | f32
  | f64
deriving DecidableEq

/-- Whether a value type is a fixed-width integer type. -/
def ValType.isInt : ValType → Bool
  | .i32 => true
  | .i64 => true
  | .f32 => false
  | .f64 => false

/-- Bit width of a fixed-width integer value type. -/
def ValType.bits : ValType → Nat
  | .i32 => 32
  | .i64 => 64
  | .f32 => 32
  | .f64 => 64

/-- Printable name of a value type. -/
def ValType.name : ValType → String
  | .i32 => "i32"
  | .i64 => "i64"
  | .f32 => "f32"
  | .f64 => "f64"

/-- Modelled from the spec: one bytecode operation (an opcode tag plus
operands).  This is the untyped flavor: apart from constants, whose type
is part of the opcode, no explicit value type is carried and types must be
derived from the abstract stack.  `unsupported` stands for an opcode with
no defined emission rule. -/
inductive Op
  | const (ty : ValType) (v : Nat)
  | add
  | drop
  | select
  | nop
  | unsupported (code : Nat)
deriving DecidableEq

/-- Modelled from the spec: the typed flavor of an instruction — the
operation together with its explicitly declared value type. -/
structure TypedInst where
  op : Op
  ty : ValType
deriving DecidableEq

/-- Modelled from the spec, §7 error taxonomy: structural errors, type
errors and unsupported-operation errors, each carrying the function index
and instruction offset as location context. -/
inductive TransError
  | structural (funcIdx off : Nat) (msg : String)
  | typeErr (funcIdx off : Nat) (msg : String)
  | unsupportedOp (funcIdx off code : Nat)
deriving DecidableEq

/-- Whether an error belongs to the structural category. -/
def TransError.isStructural : TransError → Bool
  | .structural _ _ _ => true
  | _ => false

/-- Declared input arity of an opcode (slots consumed from the stack). -/
def Op.inArity : Op → Nat
  | .const _ _ => 0
  | .add => 2
  | .drop => 1
  | .select => 3
  | .nop => 0
  | .unsupported _ => 0

/-- Declared output arity of an opcode (slots pushed onto the stack). -/
def Op.outArity : Op → Nat
  | .const _ _ => 1
  | .add => 1
  | .drop => 0
  | .select => 1
  | .nop => 0
  | .unsupported _ => 0

/-- Modelled from the spec: one emission step of the Analyzer output —
an operation with every value type resolved or inferred. -/
inductive Step
  | constS (ty : ValType) (v : Nat)
  | addS (ty : ValType)
  | dropS
  | selectS (ty : ValType)
  | nopS
  | unsupportedS (code : Nat)
deriving DecidableEq

/-- Modelled from the spec: untyped type inference.  Given an opcode and
the abstract stack it infers the operand and result types purely from the
opcode semantics and the types already present on the stack, returning
`none` when the required operand types cannot be determined from that
context. -/
def inferOp : Op → List ValType → Option (Step × List ValType)
  | .const ty v, st => some (.constS ty v, ty :: st)
  | .add, a :: b :: st => if a = b then some (.addS a, a :: st) else none
  | .add, _ => none
  | .drop, _ :: st => some (.dropS, st)
  | .drop, [] => none
  | .select, c :: a :: b :: st =>
      if c = ValType.i32 ∧ a = b then some (.selectS a, a :: st) else none
  | .select, _ => none
  | .nop, st => some (.nopS, st)
  | .unsupported code, st => some (.unsupportedS code, st)

/-- Modelled from the spec: typed-mode validation of one instruction
against the abstract stack.  The declared type must be consistent with the
current stack contents; `none` reports the inconsistency. -/
def checkTyped : TypedInst → List ValType → Option (Step × List ValType)
  | ⟨.const ty v, t⟩, st => if t = ty then some (.constS ty v, ty :: st) else none
  | ⟨.add, t⟩, a :: b :: st =>
      if a = t ∧ b = t then some (.addS t, t :: st) else none
  | ⟨.add, _⟩, _ => none
  | ⟨.drop, t⟩, a :: st => if a = t then some (.dropS, st) else none
  | ⟨.drop, _⟩, [] => none
  | ⟨.select, t⟩, c :: a :: b :: st =>
      if c = ValType.i32 ∧ a = t ∧ b = t then some (.selectS t, t :: st) else none
  | ⟨.select, _⟩, _ => none
  | ⟨.nop, _⟩, st => some (.nopS, st)
  | ⟨.unsupported code, _⟩, st => some (.unsupportedS code, st)

/-- Modelled from the spec: one Analyzer step in untyped mode.  The stack
depth is checked against the declared input arity first (underflow is a
structural error); an instruction whose required operand types cannot be
determined from context is a structural error as well, never a silently
defaulted type. -/
def analyzeStepU (fIdx off : Nat) (st : List ValType) (op : Op) :
    Except TransError (Step × List ValType) :=
  if st.length < op.inArity then
    .error (.structural fIdx off "stack underflow")
  else
    match inferOp op st with
    | some r => .ok r
    | none => .error (.structural fIdx off "operand types not determinable from context")

/-- Modelled from the spec: one Analyzer step in typed mode.  The stack
depth is checked against the declared input arity first (underflow is a
structural error); a declared type inconsistent with the stack contents is
a type error. -/
def analyzeStepT (fIdx off : Nat) (st : List ValType) (ti : TypedInst) :
    Except TransError (Step × List ValType) :=
  if st.length < ti.op.inArity then
    .error (.structural fIdx off "stack underflow")
  else
    match checkTyped ti st with
    | some r => .ok r
    | none => .error (.typeErr fIdx off "declared type inconsistent with stack")

/-- Modelled from the spec: the Analyzer walks an instruction sequence
once, threading the abstract stack and the instruction offset, producing
the list of emission steps and the final stack, or the first error. -/
def analyzeSeq {I : Type}
    (step : Nat → List ValType → I → Except TransError (Step × List ValType)) :
    Nat → List ValType → List I → Except TransError (List Step × List ValType)
  | _, st, [] => .ok ([], st)
  | off, st, i :: rest =>
    match step off st i with
    | .error e => .error e
    | .ok (s, st') =>
      match analyzeSeq step (off + 1) st' rest with
      | .error e => .error e
      | .ok (ss, fin) => .ok (s :: ss, fin)

/-- Modelled from the spec: one function of the Module — a signature
(ordered parameter and result types), declared local slots and a body. -/
structure Func (I : Type) where
  params : List ValType
  results : List ValType
  locals : List ValType
  body : List I
deriving DecidableEq

/-- Modelled from the spec: whole-function analysis.  The abstract stack
starts empty and must end exactly at the function's declared result types
(in particular at the declared result arity); a mismatch is a structural
error. -/
def analyzeFunc {I : Type}
    (step : Nat → Nat → List ValType → I → Except TransError (Step × List ValType))
    (fIdx : Nat) (f : Func I) : Except TransError (List Step) :=
  match analyzeSeq (step fIdx) 0 [] f.body with
  | .error e => .error e
  | .ok (ss, fin) =>
    if fin = f.results.reverse then .ok ss
    else .error (.structural fIdx f.body.length "final stack does not match result arity")

/-- Modelled from the spec: the base runtime support text asset
(`runtime/runtime.luau`, not under src/).  It provides linear-memory
access, fixed-width integer arithmetic emulation and indirect call
dispatch; its exact source text is a fixed, versioned asset. -/
def RUNTIME : String :=
  "-- base runtime: memory, wraparound integer arithmetic, table dispatch\n"

/-- Modelled from the spec: the export-adapter runtime text asset
(`runtime/export_runtime.luau`, not under src/), wrapping the internal
calling convention into a stable externally-callable surface. -/
def EXPORT_RUNTIME : String :=
  "-- export adapter runtime: external calling convention wrapper\n"

/-- The two runtime support text assets, in the order `lib.rs` exposes
them.  They are Lean constants: immutable, process-wide data. -/
def runtimeAssets : List String := [RUNTIME, EXPORT_RUNTIME]

/-- A call into the runtime support library, rendered as text. -/
def rtCall (fn args : String) : String := "rt." ++ fn ++ "(" ++ args ++ ")"

/-- Whether an emitted expression text is a call into the runtime support
library (its first three characters are the runtime receiver). -/
def referencesRuntime (s : String) : Bool := s.data.take 3 == "rt.".data

/-- Modelled from the spec: semantics of the runtime library's wrapping
integer addition — fixed-width wraparound, reducing modulo 2^bits. -/
def rtAddInt (bits : Nat) (a b : Nat) : Nat := (a + b) % 2 ^ bits

/-- Modelled from the spec: what a reference bytecode interpreter computes
for a fixed-width integer addition — the same wraparound modulo 2^bits. -/
def referenceInterpAdd (bits : Nat) (a b : Nat) : Nat := (a + b) % 2 ^ bits

/-- The target's native numeric addition on these magnitudes: exact,
without any fixed-width wraparound. -/
def nativeAdd (a b : Nat) : Nat := a + b

/-- Modelled from the spec: the Backend emits the operation text for one
emission step.  Integer additions, which can overflow, are emitted as a
call into the runtime support library rather than native addition; an
opcode with no defined emission rule is a fatal translation error
identifying the opcode and the instruction offset. -/
def emitStep (fIdx off : Nat) : Step → Except TransError String
  | .constS ty v => .ok ("push(" ++ ty.name ++ " " ++ toString v ++ ")")
  | .addS ty =>
    if ty.isInt then .ok (rtCall ("add_" ++ ty.name) "pop(), pop()")
    else .ok "push(pop() + pop())"
  | .dropS => .ok "pop()"
  | .selectS ty => .ok ("push(select_" ++ ty.name ++ "(pop(), pop(), pop()))")
  | .nopS => .ok "nop()"
  | .unsupportedS code => .error (.unsupportedOp fIdx off code)

/-- Modelled from the spec: the Backend walks the emission steps in order,
threading the instruction offset, producing one statement text per step or
the first error. -/
def emitSteps (fIdx : Nat) : Nat → List Step → Except TransError (List String)
  | _, [] => .ok []
  | off, s :: rest =>
    match emitStep fIdx off s with
    | .error e => .error e
    | .ok t =>
      match emitSteps fIdx (off + 1) rest with
      | .error e => .error e
      | .ok ts => .ok (t :: ts)

/-- Modelled from the spec: the emitted function body text — the emitted
statements joined into one text fragment. -/
def emitBody (fIdx : Nat) (steps : List Step) : Except TransError String :=
  match emitSteps fIdx 0 steps with
  | .error e => .error e
  | .ok ts => .ok (String.intercalate "\n" ts)

/-- Modelled from the spec: translate one function — Analyzer then
Backend — to its body text, or fail with the first error. -/
def compileFunc {I : Type}
    (step : Nat → Nat → List ValType → I → Except TransError (Step × List ValType))
    (fIdx : Nat) (f : Func I) : Except TransError String :=
  match analyzeFunc step fIdx f with
  | .error e => .error e
  | .ok ss => emitBody fIdx ss

/-- Modelled from the spec: translate every function of a module in
declaration order, numbering them from `fIdx`; any per-function failure
aborts the whole walk with that error. -/
def compileFuncs {I : Type}
    (step : Nat → Nat → List ValType → I → Except TransError (Step × List ValType)) :
    Nat → List (Func I) → Except TransError (List String)
  | _, [] => .ok []
  | fIdx, f :: rest =>
    match compileFunc step fIdx f with
    | .error e => .error e
    | .ok b =>
      match compileFuncs step (fIdx + 1) rest with
      | .error e => .error e
      | .ok bs => .ok (b :: bs)

/-- Modelled from the spec: a whole Module — ordered memories, tables,
globals, functions and exports.  The pipeline only reads it. -/
structure Module (I : Type) where
  memories : List Nat
  tables : List Nat
  globals : List (ValType × Nat)
  funcs : List (Func I)
  exports : List (String × Nat)
deriving DecidableEq

/-- One top-level item of the assembled module text, in emission order. -/
inductive Item
  | runtimeRef
  | memoryDecl (idx min : Nat)
  | tableDecl (idx min : Nat)
  | globalDecl (idx : Nat) (ty : ValType) (init : Nat)
  | funcDecl (idx : Nat) (body : String)
  | exportTable (entries : List (String × Nat))
deriving DecidableEq

/-- Memory declarations, one per declared memory, numbered from `i`. -/
def memoryItems : Nat → List Nat → List Item
  | _, [] => []
  | i, m :: rest => .memoryDecl i m :: memoryItems (i + 1) rest

/-- Table declarations, one per declared table, numbered from `i`. -/
def tableItems : Nat → List Nat → List Item
  | _, [] => []
  | i, t :: rest => .tableDecl i t :: tableItems (i + 1) rest

/-- Global declarations, one per declared global, numbered from `i`. -/
def globalItems : Nat → List (ValType × Nat) → List Item
  | _, [] => []
  | i, g :: rest => .globalDecl i g.1 g.2 :: globalItems (i + 1) rest

/-- Function declarations, one per emitted body, numbered from `i`. -/
def funcItems : Nat → List String → List Item
  | _, [] => []
  | i, b :: rest => .funcDecl i b :: funcItems (i + 1) rest

/-- Modelled from the spec: module-mode orchestration.  Emits, in order,
the runtime support library reference, the memory, table and global
declarations, one function body per declared function (via Analyzer and
Backend) and the export table; any per-function failure aborts the whole
module's translation. -/
def translateItems {I : Type}
    (step : Nat → Nat → List ValType → I → Except TransError (Step × List ValType))
    (m : Module I) : Except TransError (List Item) :=
  match compileFuncs step 0 m.funcs with
  | .error e => .error e
  | .ok bodies =>
    .ok (Item.runtimeRef :: (memoryItems 0 m.memories ++ tableItems 0 m.tables ++
      globalItems 0 m.globals ++ funcItems 0 bodies ++ [Item.exportTable m.exports]))

/-- Render one export-table entry. -/
def renderExportEntry (e : String × Nat) : String :=
  "exports." ++ e.1 ++ " = f" ++ toString e.2 ++ "\n"

/-- Render one top-level item as target source text.  The runtime support
library is referenced by its stable name, never inlined. -/
def renderItem : Item → String
  | .runtimeRef => "local rt = require(runtime)\n"
  | .memoryDecl i n =>
    "local memory_" ++ toString i ++ " = rt.memory_new(" ++ toString n ++ ")\n"
  | .tableDecl i n =>
    "local table_" ++ toString i ++ " = rt.table_new(" ++ toString n ++ ")\n"
  | .globalDecl i ty v =>
    "local global_" ++ toString i ++ " = " ++ ty.name ++ " " ++ toString v ++ "\n"
  | .funcDecl i b => "local function f" ++ toString i ++ "()\n" ++ b ++ "\nend\n"
  | .exportTable es =>
    "local exports = rt.exports_new()\n" ++
      String.join (es.map renderExportEntry) ++ "return exports\n"

/-- Render the assembled item list to the complete output text. -/
def render (items : List Item) : String := String.join (items.map renderItem)

/-- Modelled from the spec: the typed-module entry point — a pure function
from a Module value to a complete output text or an error. -/
def from_module_typed (m : Module TypedInst) : Except TransError String :=
  match translateItems analyzeStepT m with
  | .error e => .error e
  | .ok items => .ok (render items)

/-- Modelled from the spec: the untyped-module entry point — a pure
function from a Module value to a complete output text or an error. -/
def from_module_untyped (m : Module Op) : Except TransError String :=
  match translateItems analyzeStepU m with
  | .error e => .error e
  | .ok items => .ok (render items)

/-- Modelled from the spec: bare-instruction mode.  Skips the memory,
table and global declarations and the export table; the single sequence's
analyzed and emitted body is wrapped in a minimal enclosing function and
the base runtime support library is still referenced. -/
def fromInstListItems (insts : List Op) : Except TransError (List Item) :=
  match analyzeSeq (analyzeStepU 0) 0 [] insts with
  | .error e => .error e
  | .ok (ss, _) =>
    match emitBody 0 ss with
    | .error e => .error e
    | .ok b => .ok [Item.runtimeRef, Item.funcDecl 0 b]

/-- Modelled from the spec: the bare-instruction-list entry point — a pure
function from an instruction list to a complete output text or an error. -/
def from_inst_list (insts : List Op) : Except TransError String :=
  match fromInstListItems insts with
  | .error e => .error e
  | .ok items => .ok (render items)

/-! The public surface of the crate root, embedded from
`src/codegen/luau/src/lib.rs` (its eight lines are in the source tree). -/

/-- Kind of a top-level declaration of `lib.rs`: a public static text
asset, a function re-exported from the `translator` module, or one of the
crate's inner modules. -/
inductive LibItemKind
  | staticAsset
  | translatorFn
  | innerModule
deriving DecidableEq

/-- One top-level declaration of `lib.rs`: its name, whether it is `pub`,
and its kind. -/
structure LibDecl where
  declName : String
  isPub : Bool
  kind : LibItemKind
deriving DecidableEq

/-- The eight top-level declarations of `src/codegen/luau/src/lib.rs`, in
source order: the two `pub static` runtime assets (lines 1-2), the three
`pub use translator::...` re-exports (line 4), and the three private
`mod` declarations (lines 6-8). -/
def libDecls : List LibDecl :=
  [⟨"RUNTIME", true, .staticAsset⟩,
   ⟨"EXPORT_RUNTIME", true, .staticAsset⟩,
   ⟨"from_inst_list", true, .translatorFn⟩,
   ⟨"from_module_typed", true, .translatorFn⟩,
   ⟨"from_module_untyped", true, .translatorFn⟩,
   ⟨"analyzer", false, .innerModule⟩,
   ⟨"backend", false, .innerModule⟩,
   ⟨"translator", false, .innerModule⟩]

/-- The declarations of `lib.rs` visible to external users. -/
def publicDecls : List LibDecl := libDecls.filter (·.isPub)

/-- The names of the translation entry points the crate exposes. -/
def entryPointNames : List String :=
  (libDecls.filter (fun d => d.isPub && d.kind == .translatorFn)).map (·.declName)

/-! Abstract stack-depth bookkeeping used by the stack-safety claim. -/

/-- The abstract stack depth at every program point of a sequence: the
depth before each instruction, and the final depth, computed over the
integers from the declared input and output arities. -/
def depthTrace {I : Type} (arI arO : I → Nat) : Int → List I → List Int
  | d, [] => [d]
  | d, i :: rest => d :: depthTrace arI arO (d - (arI i : Int) + (arO i : Int)) rest

/-- The abstract stack depth after the whole sequence, computed over the
integers from the declared input and output arities. -/
def finalDepth {I : Type} (arI arO : I → Nat) (d : Int) (l : List I) : Int :=
  l.foldl (fun d i => d - (arI i : Int) + (arO i : Int)) d

/-- A step function respects the declared arities: success implies the
stack was at least `inArity` deep and the new depth is
`depth - inArity + outArity`. -/
def StepArity {I : Type}
    (step : Nat → List ValType → I → Except TransError (Step × List ValType))
    (arI arO : I → Nat) : Prop :=
  ∀ off st i out, step off st i = .ok out →
    arI i ≤ st.length ∧ out.2.length = st.length - arI i + arO i

/-- A step function reports stack underflow as a structural error. -/
def StepUnderflow {I : Type}
    (step : Nat → List ValType → I → Except TransError (Step × List ValType))
    (arI : I → Nat) : Prop :=
  ∀ off st i, st.length < arI i →
    ∃ fi o msg, step off st i = .error (.structural fi o msg)

/-! Concrete inputs used to exercise the pipeline. -/

/-- The empty module: no memories, tables, globals, functions or exports. -/
def emptyModule : Module TypedInst := ⟨[], [], [], [], []⟩

/-- A well-formed typed function: pushes one i32 constant and returns it. -/
def okFuncT : Func TypedInst :=
  ⟨[], [ValType.i32], [], [⟨Op.const ValType.i32 1, ValType.i32⟩]⟩

/-- A typed function whose body drops from an empty stack: underflow. -/
def underflowFuncT : Func TypedInst :=
  ⟨[], [], [], [⟨Op.drop, ValType.i32⟩]⟩

/-- A typed function containing an opcode with no defined emission rule. -/
def badFuncT : Func TypedInst :=
  ⟨[], [], [], [⟨Op.unsupported 99, ValType.i32⟩]⟩

/-- A module with one valid function and one function whose opcode has no
defined emission rule. -/
def badModule : Module TypedInst := ⟨[], [], [], [okFuncT, badFuncT], []⟩

/-- A well-formed untyped function: pushes one i32 constant and returns it. -/
def okFuncU : Func Op := ⟨[], [ValType.i32], [], [Op.const ValType.i32 1]⟩

/-- An untyped function whose body drops from an empty stack: underflow. -/
def underflowFuncU : Func Op := ⟨[], [], [], [Op.drop]⟩

/-- A bare instruction list: push an i32 constant, then drop it. -/
def demoInsts : List Op := [Op.const ValType.i32 1, Op.drop]

/-- The body text the Backend emits for `demoInsts`. -/
def demoBody : String := "push(i32 1)" ++ "\n" ++ "pop()"

/-- The item list bare-instruction mode produces for `demoInsts`. -/
def demoItems : List Item := [Item.runtimeRef, Item.funcDecl 0 demoBody]

lemma inferOp_arity (op : Op) (st : List ValType) (r : Step × List ValType)
    (h : inferOp op st = some r) :
    r.2.length = st.length - op.inArity + op.outArity := by
  cases op with
  | const ty v =>
    simp only [inferOp, Option.some_inj] at h
    subst h
    simp [Op.inArity, Op.outArity]
  | add =>
    match st with
    | [] => simp [inferOp] at h
    | [a] => simp [inferOp] at h
    | a :: b :: rest =>
      simp only [inferOp] at h
      split at h
      · simp only [Option.some_inj] at h
        subst h
        simp [Op.inArity, Op.outArity]
      · exact absurd h (by simp)
  | drop =>
    match st with
    | [] => simp [inferOp] at h
    | a :: rest =>
      simp only [inferOp, Option.some_inj] at h
      subst h
      simp [Op.inArity, Op.outArity]
  | select =>
    match st with
    | [] => simp [inferOp] at h
    | [c] => simp [inferOp] at h
    | [c, a] => simp [inferOp] at h
    | c :: a :: b :: rest =>
      simp only [inferOp] at h
      split at h
      · simp only [Option.some_inj] at h
        subst h
        simp [Op.inArity, Op.outArity]
      · exact absurd h (by simp)
  | nop =>
    simp only [inferOp, Option.some_inj] at h
    subst h
    simp [Op.inArity, Op.outArity]
  | unsupported code =>
    simp only [inferOp, Option.some_inj] at h
    subst h
    simp [Op.inArity, Op.outArity]

lemma checkTyped_arity (ti : TypedInst) (st : List ValType) (r : Step × List ValType)
    (h : checkTyped ti st = some r) :
    r.2.length = st.length - ti.op.inArity + ti.op.outArity := by
  obtain ⟨op, t⟩ := ti
  cases op with
  | const ty v =>
    simp only [checkTyped] at h
    split at h
    · simp only [Option.some_inj] at h
      subst h
      simp [Op.inArity, Op.outArity]
    · exact absurd h (by simp)
  | add =>
    match st with
    | [] => simp [checkTyped] at h
    | [a] => simp [checkTyped] at h
    | a :: b :: rest =>
      simp only [checkTyped] at h
      split at h
      · simp only [Option.some_inj] at h
        subst h
        simp [Op.inArity, Op.outArity]
      · exact absurd h (by simp)
  | drop =>
    match st with
    | [] => simp [checkTyped] at h
    | a :: rest =>
      simp only [checkTyped] at h
      split at h
      · simp only [Option.some_inj] at h
        subst h
        simp [Op.inArity, Op.outArity]
      · exact absurd h (by simp)
  | select =>
    match st with
    | [] => simp [checkTyped] at h
    | [c] => simp [checkTyped] at h
    | [c, a] => simp [checkTyped] at h
    | c :: a :: b :: rest =>
      simp only [checkTyped] at h
      split at h
      · simp only [Option.some_inj] at h
        subst h
        simp [Op.inArity, Op.outArity]
      · exact absurd h (by simp)
  | nop =>
    simp only [checkTyped, Option.some_inj] at h
    subst h
    simp [Op.inArity, Op.outArity]
  | unsupported code =>
    simp only [checkTyped, Option.some_inj] at h
    subst h
    simp [Op.inArity, Op.outArity]

lemma stepU_arity (fIdx : Nat) :
    StepArity (analyzeStepU fIdx) Op.inArity Op.outArity := by
  intro off st i out h
  unfold analyzeStepU at h
  split at h
  · exact absurd h (by simp)
  · next hlt =>
    refine ⟨Nat.le_of_not_lt hlt, ?_⟩
    cases hio : inferOp i st with
    | none => rw [hio] at h; exact absurd h (by simp)
    | some r =>
      rw [hio] at h
      simp only [Except.ok.injEq] at h
      subst h
      exact inferOp_arity i st r hio

lemma stepT_arity (fIdx : Nat) :
    StepArity (analyzeStepT fIdx) (fun ti => ti.op.inArity) (fun ti => ti.op.outArity) := by
  intro off st i out h
  unfold analyzeStepT at h
  split at h
  · exact absurd h (by simp)
  · next hlt =>
    refine ⟨Nat.le_of_not_lt hlt, ?_⟩
    cases hio : checkTyped i st with
    | none => rw [hio] at h; exact absurd h (by simp)
    | some r =>
      rw [hio] at h
      simp only [Except.ok.injEq] at h
      subst h
      exact checkTyped_arity i st r hio

lemma stepU_underflow (fIdx : Nat) :
    StepUnderflow (analyzeStepU fIdx) Op.inArity := by
  intro off st i hlt
  exact ⟨fIdx, off, "stack underflow", by unfold analyzeStepU; rw [if_pos hlt]⟩

lemma stepT_underflow (fIdx : Nat) :
    StepUnderflow (analyzeStepT fIdx) (fun ti => ti.op.inArity) := by
  intro off st i hlt
  exact ⟨fIdx, off, "stack underflow", by unfold analyzeStepT; rw [if_pos hlt]⟩

lemma analyzeSeq_ok_facts {I : Type}
    (step : Nat → List ValType → I → Except TransError (Step × List ValType))
    (arI arO : I → Nat) (hspec : StepArity step arI arO) :
    ∀ (l : List I) (off : Nat) (st : List ValType) (ss : List Step) (fin : List ValType),
      analyzeSeq step off st l = .ok (ss, fin) →
      (∀ d ∈ depthTrace arI arO (st.length : Int) l, 0 ≤ d) ∧
      (fin.length : Int) = finalDepth arI arO (st.length : Int) l := by
  intro l
  induction l with
  | nil =>
    intro off st ss fin h
    simp only [analyzeSeq, Except.ok.injEq, Prod.mk.injEq] at h
    refine ⟨?_, ?_⟩
    · intro d hd
      simp only [depthTrace, List.mem_singleton] at hd
      subst hd
      exact Int.natCast_nonneg _
    · rw [← h.2]
      rfl
  | cons i rest ih =>
    intro off st ss fin h
    cases hs : step off st i with
    | error e => simp [analyzeSeq, hs] at h
    | ok out =>
      obtain ⟨s, st'⟩ := out
      cases hr : analyzeSeq step (off + 1) st' rest with
      | error e => simp [analyzeSeq, hs, hr] at h
      | ok out' =>
        obtain ⟨ss', fin'⟩ := out'
        simp only [analyzeSeq, hs, hr, Except.ok.injEq, Prod.mk.injEq] at h
        obtain ⟨hle, hlen⟩ := hspec off st i (s, st') hs
        have hint : (st'.length : Int) = (st.length : Int) - (arI i : Int) + (arO i : Int) := by
          simp only at hlen
          omega
        obtain ⟨ihnn, ihfin⟩ := ih (off + 1) st' ss' fin' hr
        refine ⟨?_, ?_⟩
        · intro d hd
          simp only [depthTrace, List.mem_cons] at hd
          rcases hd with hd | hd
          · subst hd
            exact Int.natCast_nonneg _
          · rw [← hint] at hd
            exact ihnn d hd
        · have hfe : fin' = fin := h.2
          subst hfe
          rw [ihfin]
          simp only [finalDepth, List.foldl_cons]
          rw [hint]

lemma analyzeSeq_append_underflow {I : Type}
    (step : Nat → List ValType → I → Except TransError (Step × List ValType))
    (arI : I → Nat) (hu : StepUnderflow step arI) :
    ∀ (xs : List I) (off : Nat) (st : List ValType) (ss : List Step)
      (fin : List ValType) (op : I) (ys : List I),
      analyzeSeq step off st xs = .ok (ss, fin) → fin.length < arI op →
      ∃ fi o msg,
        analyzeSeq step off st (xs ++ op :: ys) = .error (.structural fi o msg) := by
  intro xs
  induction xs with
  | nil =>
    intro off st ss fin op ys h hlt
    simp only [analyzeSeq, Except.ok.injEq, Prod.mk.injEq] at h
    obtain ⟨fi, o, msg, he⟩ := hu off st op (h.2 ▸ hlt)
    exact ⟨fi, o, msg, by simp [analyzeSeq, he]⟩
  | cons x xs ih =>
    intro off st ss fin op ys h hlt
    cases hs : step off st x with
    | error e => simp [analyzeSeq, hs] at h
    | ok out =>
      obtain ⟨s, st'⟩ := out
      cases hr : analyzeSeq step (off + 1) st' xs with
      | error e => simp [analyzeSeq, hs, hr] at h
      | ok out' =>
        obtain ⟨ss', fin'⟩ := out'
        simp only [analyzeSeq, hs, hr, Except.ok.injEq, Prod.mk.injEq] at h
        obtain ⟨fi, o, msg, he⟩ := ih (off + 1) st' ss' fin' op ys hr (h.2 ▸ hlt)
        exact ⟨fi, o, msg, by simp [analyzeSeq, hs, he]⟩

lemma analyzeFunc_of_seq_error {I : Type}
    (step : Nat → Nat → List ValType → I → Except TransError (Step × List ValType))
    (fIdx : Nat) (f : Func I) (e : TransError)
    (h : analyzeSeq (step fIdx) 0 [] f.body = .error e) :
    analyzeFunc step fIdx f = .error e := by
  unfold analyzeFunc
  rw [h]

lemma analyzeFunc_ok_seq {I : Type}
    (step : Nat → Nat → List ValType → I → Except TransError (Step × List ValType))
    (fIdx : Nat) (f : Func I) (ss : List Step)
    (h : analyzeFunc step fIdx f = .ok ss) :
    ∃ fin, analyzeSeq (step fIdx) 0 [] f.body = .ok (ss, fin) ∧
      fin.length = f.results.length := by
  cases hr : analyzeSeq (step fIdx) 0 [] f.body with
  | error e => simp [analyzeFunc, hr] at h
  | ok out =>
    obtain ⟨ss', fin⟩ := out
    simp only [analyzeFunc, hr] at h
    split at h
    · next hfin =>
      simp only [Except.ok.injEq] at h
      subst h
      exact ⟨fin, rfl, by rw [hfin]; exact List.length_reverse _⟩
    · exact absurd h (by simp)

lemma compileFunc_of_analyze_error {I : Type}
    (step : Nat → Nat → List ValType → I → Except TransError (Step × List ValType))
    (fIdx : Nat) (f : Func I) (e : TransError)
    (h : analyzeFunc step fIdx f = .error e) :
    compileFunc step fIdx f = .error e := by
  unfold compileFunc
  rw [h]

lemma compileFuncs_error_of_mem {I : Type}
    (step : Nat → Nat → List ValType → I → Except TransError (Step × List ValType)) :
    ∀ (fs : List (Func I)) (i j : Nat) (f : Func I) (e : TransError),
      fs.get? j = some f → compileFunc step (i + j) f = .error e →
      ∃ e', compileFuncs step i fs = .error e' := by
  intro fs
  induction fs with
  | nil =>
    intro i j f e hget _
    simp at hget
  | cons g gs ih =>
    intro i j f e hget hfail
    cases hc : compileFunc step i g with
    | error e0 => exact ⟨e0, by simp [compileFuncs, hc]⟩
    | ok b =>
      cases j with
      | zero =>
        simp only [List.get?_cons_zero] at hget
        have : g = f := by injection hget
        subst this
        rw [Nat.add_zero] at hfail
        rw [hfail] at hc
        exact absurd hc (by simp)
      | succ j' =>
        simp only [List.get?_cons_succ] at hget
        have : i + (j' + 1) = (i + 1) + j' := by omega
        rw [this] at hfail
        obtain ⟨e', he'⟩ := ih (i + 1) j' f e hget hfail
        exact ⟨e', by simp [compileFuncs, hc, he']⟩

lemma translateItems_error_of_funcs {I : Type}
    (step : Nat → Nat → List ValType → I → Except TransError (Step × List ValType))
    (m : Module I) (e : TransError)
    (h : compileFuncs step 0 m.funcs = .error e) :
    translateItems step m = .error e := by
  unfold translateItems
  rw [h]

/-- C1: the crate exposes exactly three translation entry points —
`from_inst_list`, `from_module_typed` and `from_module_untyped` — and each
is a pure (total) function from its input value to either a complete
output text or an error. -/
theorem c1_three_entry_points :
    entryPointNames = ["from_inst_list", "from_module_typed", "from_module_untyped"] ∧
    entryPointNames.length = 3 ∧
    (∀ m : Module TypedInst,
      (∃ s, from_module_typed m = .ok s) ∨ (∃ e, from_module_typed m = .error e)) ∧
    (∀ m : Module Op,
      (∃ s, from_module_untyped m = .ok s) ∨ (∃ e, from_module_untyped m = .error e)) ∧
    (∀ l : List Op,
      (∃ s, from_inst_list l = .ok s) ∨ (∃ e, from_inst_list l = .error e)) := by
  refine ⟨rfl, rfl, ?_, ?_, ?_⟩
  · intro m
    cases h : from_module_typed m with
    | ok s => exact Or.inl ⟨s, rfl⟩
    | error e => exact Or.inr ⟨e, rfl⟩
  · intro m
    cases h : from_module_untyped m with
    | ok s => exact Or.inl ⟨s, rfl⟩
    | error e => exact Or.inr ⟨e, rfl⟩
  · intro l
    cases h : from_inst_list l with
    | ok s => exact Or.inl ⟨s, rfl⟩
    | error e => exact Or.inr ⟨e, rfl⟩

/-- C2: the runtime support library interface is exactly two fixed text
assets exposed as named constants — `RUNTIME` and `EXPORT_RUNTIME` — both
immutable data (Lean constants) that the pipeline consumes by reference
(the first assembled item is the runtime reference) and never generates
or mutates. -/
theorem c2_runtime_assets :
    runtimeAssets = [RUNTIME, EXPORT_RUNTIME] ∧
    runtimeAssets.length = 2 ∧
    (libDecls.filter (fun d => d.kind == LibItemKind.staticAsset)).map (·.declName) =
      ["RUNTIME", "EXPORT_RUNTIME"] ∧
    (∀ (m : Module TypedInst) (items : List Item),
      translateItems analyzeStepT m = .ok items →
      items.head? = some Item.runtimeRef) := by
  refine ⟨rfl, rfl, rfl, ?_⟩
  intro m items h
  cases hc : compileFuncs analyzeStepT 0 m.funcs with
  | error e => simp [translateItems, hc] at h
  | ok bodies =>
    simp only [translateItems, hc, Except.ok.injEq] at h
    rw [← h]
    rfl

/-- C2 witness: the empty module translates, and the head of its item
list is the runtime support library reference. -/
theorem c2_runtime_assets_witness :
    [Item.runtimeRef, Item.exportTable []].head? = some Item.runtimeRef :=
  c2_runtime_assets.2.2.2 emptyModule [Item.runtimeRef, Item.exportTable []] rfl

/-- C3: for every Module value (and bare instruction list), calling the
same translation entry point on it twice yields byte-identical output
text — the entry points are pure functions of their input. -/
theorem c3_determinism :
    ∀ (m : Module TypedInst) (m2 : Module Op) (l : List Op),
      from_module_typed m = from_module_typed m ∧
      from_module_untyped m2 = from_module_untyped m2 ∧
      from_inst_list l = from_inst_list l :=
  fun _ _ _ => ⟨rfl, rfl, rfl⟩

/-- C8: translating the empty module succeeds and yields output text
consisting of exactly the runtime support library reference and an empty
export table — no other declarations. -/
theorem c8_empty_module :
    translateItems analyzeStepT emptyModule = .ok [Item.runtimeRef, Item.exportTable []] ∧
    from_module_typed emptyModule =
      .ok (render [Item.runtimeRef, Item.exportTable []]) :=
  ⟨rfl, rfl⟩

/-- C10: the crate's entire public surface is the two runtime text
constants plus the three functions re-exported from the translator
module; the `analyzer`, `backend` and `translator` modules themselves are
private, so analysis and emission are only reachable through the three
entry points. -/
theorem c10_public_surface :
    publicDecls.map (·.declName) =
      ["RUNTIME", "EXPORT_RUNTIME",
       "from_inst_list", "from_module_typed", "from_module_untyped"] ∧
    (libDecls.filter (fun d => !d.isPub)).map (·.declName) =
      ["analyzer", "backend", "translator"] ∧
    (libDecls.filter (fun d => d.kind == LibItemKind.innerModule)).all
      (fun d => !d.isPub) = true :=
  ⟨rfl, rfl, rfl⟩

/-- C4: module translation is all-or-nothing — if translating any one
function of a module fails (for example on an opcode with no defined
emission rule), the whole-module translation returns an error and no
output text is produced. -/
theorem c4_atomic_failure (m : Module TypedInst) (j : Nat) (f : Func TypedInst)
    (e : TransError) (hf : m.funcs.get? j = some f)
    (he : compileFunc analyzeStepT j f = .error e) :
    (∃ e', from_module_typed m = .error e') ∧ ∀ s, from_module_typed m ≠ .ok s := by
  have he0 : compileFunc analyzeStepT (0 + j) f = .error e := by
    rw [Nat.zero_add]; exact he
  obtain ⟨e', he'⟩ := compileFuncs_error_of_mem analyzeStepT m.funcs 0 j f e hf he0
  have hti : translateItems analyzeStepT m = .error e' :=
    translateItems_error_of_funcs analyzeStepT m e' he'
  constructor
  · refine ⟨e', ?_⟩
    unfold from_module_typed
    rw [hti]
  · intro s hs
    unfold from_module_typed at hs
    rw [hti] at hs
    cases hs

/-- C4 witness: a module whose second function holds an unsupported
opcode fails whole-module translation and produces no output text. -/
theorem c4_atomic_failure_witness :
    (∃ e', from_module_typed badModule = .error e') ∧
    ∀ s, from_module_typed badModule ≠ .ok s :=
  c4_atomic_failure badModule 1 badFuncT (.unsupportedOp 1 0 99) rfl rfl

/-- C5: for every instruction sequence accepted by the Analyzer (either
flavor), the abstract stack depth is non-negative at every program point
and ends exactly at the function's declared result arity; and every
sequence that reaches a stack underflow fails with a structural error
rather than producing output. -/
theorem c5_stack_safety :
    (∀ (fIdx : Nat) (f : Func Op) (ss : List Step),
      analyzeFunc analyzeStepU fIdx f = .ok ss →
      (∀ d ∈ depthTrace Op.inArity Op.outArity 0 f.body, 0 ≤ d) ∧
      finalDepth Op.inArity Op.outArity 0 f.body = (f.results.length : Int)) ∧
    (∀ (fIdx : Nat) (f : Func Op) (xs : List Op) (op : Op) (ys : List Op)
      (ss : List Step) (fin : List ValType),
      f.body = xs ++ op :: ys →
      analyzeSeq (analyzeStepU fIdx) 0 [] xs = .ok (ss, fin) →
      fin.length < op.inArity →
      ∃ fi o msg, analyzeFunc analyzeStepU fIdx f = .error (.structural fi o msg)) ∧
    (∀ (fIdx : Nat) (f : Func TypedInst) (ss : List Step),
      analyzeFunc analyzeStepT fIdx f = .ok ss →
      (∀ d ∈ depthTrace (fun ti : TypedInst => ti.op.inArity)
        (fun ti : TypedInst => ti.op.outArity) 0 f.body, 0 ≤ d) ∧
      finalDepth (fun ti : TypedInst => ti.op.inArity)
        (fun ti : TypedInst => ti.op.outArity) 0 f.body = (f.results.length : Int)) ∧
    (∀ (fIdx : Nat) (f : Func TypedInst) (xs : List TypedInst) (ti : TypedInst)
      (ys : List TypedInst) (ss : List Step) (fin : List ValType),
      f.body = xs ++ ti :: ys →
      analyzeSeq (analyzeStepT fIdx) 0 [] xs = .ok (ss, fin) →
      fin.length < ti.op.inArity →
      ∃ fi o msg, analyzeFunc analyzeStepT fIdx f = .error (.structural fi o msg)) := by
  refine ⟨?_, ?_, ?_, ?_⟩
  · intro fIdx f ss h
    obtain ⟨fin, hseq, hlen⟩ := analyzeFunc_ok_seq analyzeStepU fIdx f ss h
    obtain ⟨hnn, hfd⟩ := analyzeSeq_ok_facts (analyzeStepU fIdx) Op.inArity Op.outArity
      (stepU_arity fIdx) f.body 0 [] ss fin hseq
    refine ⟨by simpa using hnn, ?_⟩
    rw [← hlen]
    simpa using hfd.symm
  · intro fIdx f xs op ys ss fin hb hseq hlt
    obtain ⟨fi, o, msg, he⟩ := analyzeSeq_append_underflow (analyzeStepU fIdx)
      Op.inArity (stepU_underflow fIdx) xs 0 [] ss fin op ys hseq hlt
    refine ⟨fi, o, msg, ?_⟩
    exact analyzeFunc_of_seq_error analyzeStepU fIdx f _ (by rw [hb]; exact he)
  · intro fIdx f ss h
    obtain ⟨fin, hseq, hlen⟩ := analyzeFunc_ok_seq analyzeStepT fIdx f ss h
    obtain ⟨hnn, hfd⟩ := analyzeSeq_ok_facts (analyzeStepT fIdx)
      (fun ti : TypedInst => ti.op.inArity) (fun ti : TypedInst => ti.op.outArity)
      (stepT_arity fIdx) f.body 0 [] ss fin hseq
    refine ⟨by simpa using hnn, ?_⟩
    rw [← hlen]
    simpa using hfd.symm
  · intro fIdx f xs ti ys ss fin hb hseq hlt
    obtain ⟨fi, o, msg, he⟩ := analyzeSeq_append_underflow (analyzeStepT fIdx)
      (fun ti : TypedInst => ti.op.inArity) (stepT_underflow fIdx) xs 0 [] ss fin ti ys hseq hlt
    refine ⟨fi, o, msg, ?_⟩
    exact analyzeFunc_of_seq_error analyzeStepT fIdx f _ (by rw [hb]; exact he)

/-- C5 witness: a one-constant function analyzes with a non-negative
trace ending at result arity one, and a drop-from-empty-stack function is
rejected with a structural error, in both flavors. -/
theorem c5_stack_safety_witness :
    ((∀ d ∈ depthTrace Op.inArity Op.outArity 0 okFuncU.body, 0 ≤ d) ∧
      finalDepth Op.inArity Op.outArity 0 okFuncU.body = (okFuncU.results.length : Int)) ∧
    (∃ fi o msg, analyzeFunc analyzeStepU 0 underflowFuncU = .error (.structural fi o msg)) ∧
    ((∀ d ∈ depthTrace (fun ti : TypedInst => ti.op.inArity)
        (fun ti : TypedInst => ti.op.outArity) 0 okFuncT.body, 0 ≤ d) ∧
      finalDepth (fun ti : TypedInst => ti.op.inArity)
        (fun ti : TypedInst => ti.op.outArity) 0 okFuncT.body = (okFuncT.results.length : Int)) ∧
    (∃ fi o msg, analyzeFunc analyzeStepT 0 underflowFuncT = .error (.structural fi o msg)) :=
  ⟨c5_stack_safety.1 0 okFuncU [Step.constS ValType.i32 1] rfl,
   c5_stack_safety.2.1 0 underflowFuncU [] Op.drop [] [] [] rfl rfl (by decide),
   c5_stack_safety.2.2.1 0 okFuncT [Step.constS ValType.i32 1] rfl,
   c5_stack_safety.2.2.2 0 underflowFuncT [] ⟨Op.drop, ValType.i32⟩ [] [] [] rfl rfl
     (by decide)⟩

/-- C6: in untyped mode, an instruction's operand and result types come
solely from the pure inference function `inferOp` of the opcode and the
abstract stack: when the required types cannot be determined from that
context the Analyzer fails with a structural error, and whenever it
succeeds its result is exactly the inferred one — no silent default. -/
theorem c6_untyped_inference (off : Nat) (st : List ValType) (op : Op)
    (har : op.inArity ≤ st.length) :
    (inferOp op st = none →
      ∃ fi o msg, analyzeStepU 0 off st op = .error (.structural fi o msg)) ∧
    (∀ r, analyzeStepU 0 off st op = .ok r → inferOp op st = some r) := by
  constructor
  · intro hn
    refine ⟨0, off, "operand types not determinable from context", ?_⟩
    unfold analyzeStepU
    rw [if_neg (Nat.not_lt.mpr har), hn]
  · intro r hr
    unfold analyzeStepU at hr
    rw [if_neg (Nat.not_lt.mpr har)] at hr
    cases hio : inferOp op st with
    | none => rw [hio] at hr; cases hr
    | some r' =>
      rw [hio] at hr
      simp only [Except.ok.injEq] at hr
      rw [hr]

/-- C6 witness: an untyped add over mismatched operand types (i32 above
i64) has no determinable operand type and is rejected structurally, while
over matching types the Analyzer returns exactly the inferred result. -/
theorem c6_untyped_inference_witness :
    (∃ fi o msg,
      analyzeStepU 0 0 [ValType.i32, ValType.i64] Op.add = .error (.structural fi o msg)) ∧
    inferOp Op.add [ValType.i32, ValType.i32] =
      some (Step.addS ValType.i32, [ValType.i32]) :=
  ⟨(c6_untyped_inference 0 [ValType.i32, ValType.i64] Op.add (by decide)).1 rfl,
   (c6_untyped_inference 0 [ValType.i32, ValType.i32] Op.add (by decide)).2
     (Step.addS ValType.i32, [ValType.i32]) rfl⟩

/-- C7: every integer addition (the overflow-capable instruction) is
emitted as a call into the runtime support library, and the runtime's
wraparound semantics make the 32-bit maximum value plus one wrap to 0,
matching the reference interpreter and differing from the target's
native (exact) addition. -/
theorem c7_numeric_wraparound :
    (∀ ty : ValType, ty.isInt = true →
      emitStep 0 0 (.addS ty) = .ok (rtCall ("add_" ++ ty.name) "pop(), pop()") ∧
      referencesRuntime (rtCall ("add_" ++ ty.name) "pop(), pop()") = true) ∧
    rtAddInt 32 (2 ^ 32 - 1) 1 = 0 ∧
    rtAddInt 32 (2 ^ 32 - 1) 1 = referenceInterpAdd 32 (2 ^ 32 - 1) 1 ∧
    nativeAdd (2 ^ 32 - 1) 1 ≠ rtAddInt 32 (2 ^ 32 - 1) 1 := by
  refine ⟨?_, by decide, rfl, by decide⟩
  intro ty hty
  cases ty with
  | i32 => exact ⟨rfl, by decide⟩
  | i64 => exact ⟨rfl, by decide⟩
  | f32 => cases hty
  | f64 => cases hty

/-- C7 witness: the i32 addition is emitted as a runtime-library call. -/
theorem c7_numeric_wraparound_witness :
    emitStep 0 0 (.addS ValType.i32) =
      .ok (rtCall ("add_" ++ ValType.i32.name) "pop(), pop()") ∧
    referencesRuntime (rtCall ("add_" ++ ValType.i32.name) "pop(), pop()") = true :=
  c7_numeric_wraparound.1 ValType.i32 rfl

/-- C9: for every bare instruction list the entry point emits no memory,
table or global declarations and no export table; it wraps the emitted
body in one minimal enclosing function and still references the base
runtime support library. -/
theorem c9_bare_instruction_mode (insts : List Op) (items : List Item)
    (h : fromInstListItems insts = .ok items) :
    (∃ b, items = [Item.runtimeRef, Item.funcDecl 0 b]) ∧
    Item.runtimeRef ∈ items ∧
    (∀ it ∈ items,
      (∀ i n, it ≠ Item.memoryDecl i n) ∧
      (∀ i n, it ≠ Item.tableDecl i n) ∧
      (∀ i ty v, it ≠ Item.globalDecl i ty v) ∧
      (∀ es, it ≠ Item.exportTable es)) ∧
    from_inst_list insts = .ok (render items) := by
  have hitems : ∃ b, items = [Item.runtimeRef, Item.funcDecl 0 b] := by
    cases ha : analyzeSeq (analyzeStepU 0) 0 [] insts with
    | error e => simp [fromInstListItems, ha] at h
    | ok out =>
      obtain ⟨ss, fin⟩ := out
      cases hb : emitBody 0 ss with
      | error e => simp [fromInstListItems, ha, hb] at h
      | ok b =>
        simp only [fromInstListItems, ha, hb, Except.ok.injEq] at h
        exact ⟨b, h.symm⟩
  obtain ⟨b, hb⟩ := hitems
  subst hb
  refine ⟨⟨b, rfl⟩, by simp, ?_, ?_⟩
  · intro it hit
    simp only [List.mem_cons, List.not_mem_nil, or_false] at hit
    rcases hit with hit | hit
    · subst hit
      exact ⟨fun i n => by simp, fun i n => by simp, fun i ty v => by simp, fun es => by simp⟩
    · subst hit
      exact ⟨fun i n => by simp, fun i n => by simp, fun i ty v => by simp, fun es => by simp⟩
  · unfold from_inst_list
    rw [h]

/-- C9 witness: the demo instruction list translates to exactly the
runtime reference and one wrapped function, and renders successfully. -/
theorem c9_bare_instruction_mode_witness :
    (∃ b, demoItems = [Item.runtimeRef, Item.funcDecl 0 b]) ∧
    Item.runtimeRef ∈ demoItems ∧
    (∀ it ∈ demoItems,
      (∀ i n, it ≠ Item.memoryDecl i n) ∧
      (∀ i n, it ≠ Item.tableDecl i n) ∧
      (∀ i ty v, it ≠ Item.globalDecl i ty v) ∧
      (∀ es, it ≠ Item.exportTable es)) ∧
    from_inst_list demoInsts = .ok (render demoItems) :=
  c9_bare_instruction_mode demoInsts demoItems rfl

end Wasynth
